import Mathlib

/-!
Shallow embedding of `src/utils/resume_parser.py` (class `ResumeParser`)
and proofs of the specification claims about it.

Strings are modelled as `List Char` (named `Str`).  The two regular
expressions used by `extract_information` are embedded as backtracking
matchers with Python `re` semantics: leftmost starting position wins and,
at a given starting position, greedy quantifiers prefer the longest
repetition first, backtracking on failure of the continuation.
-/

abbrev Str := List Char

/-- ASCII word character, Python regex `\w` restricted to ASCII input. -/
def isWordChar (c : Char) : Bool := c.isAlphanum || c == '_'

/-- Python regex `\s` (ASCII part). -/
def pySpace (c : Char) : Bool :=
  c == ' ' || c == '\t' || c == '\n' || c == '\r' || c == '\x0b' || c == '\x0c'

/-- Word-character test on an optional character (text edge counts as non-word). -/
def wordOpt : Option Char → Bool
  | none => false
  | some c => isWordChar c

/-- Python regex `\b`: a word boundary holds between the previous character
(`none` at the start of the text) and the rest of the text. -/
def boundary (prev : Option Char) (rest : Str) : Bool :=
  wordOpt prev != (match rest with | [] => false | c :: _ => isWordChar c)

/-- Try `f hi`, `f (hi-1)`, ..., `f lo` in that order and return the first
success.  This is the greedy backtracking order of a Python quantifier. -/
def descTry (f : Nat → Option Nat) (lo : Nat) : Nat → Option Nat
  | 0 => if 0 < lo then none else f 0
  | hi + 1 =>
    if hi + 1 < lo then none
    else
      match f (hi + 1) with
      | some n => some n
      | none => descTry f lo hi

/-- Length of the maximal run of characters satisfying `cls` at the front. -/
def runLen (cls : Char → Bool) : Str → Nat
  | [] => 0
  | c :: cs => if cls c then runLen cls cs + 1 else 0

/-- The character that precedes the continuation after consuming `j`
characters of `rest` (the original `prev` when `j = 0`). -/
def lastConsumed (prev : Option Char) (rest : Str) (j : Nat) : Option Char :=
  if j = 0 then prev else rest[j - 1]?

/-- Greedy bounded repetition of a character class: consume between `lo` and
`hi?` (unbounded when `none`) characters of `cls`, preferring more, then run
the continuation `k` on the remainder; on failure of `k`, backtrack.  The
returned number is the total number of characters consumed from `rest`. -/
def classRep (cls : Char → Bool) (lo : Nat) (hi? : Option Nat)
    (prev : Option Char) (rest : Str)
    (k : Option Char → Str → Option Nat) : Option Nat :=
  let m := runLen cls rest
  let hi := match hi? with | none => m | some h => min h m
  descTry (fun j => (k (lastConsumed prev rest j) (rest.drop j)).map (· + j)) lo hi

/-- Greedy optional single character of a class (`x?`): try consuming, then
try not consuming. -/
def optChar (cls : Char → Bool) (prev : Option Char) (rest : Str)
    (k : Option Char → Str → Option Nat) : Option Nat :=
  match rest with
  | c :: cs =>
    if cls c then
      match (k (some c) cs).map (· + 1) with
      | some n => some n
      | none => k prev rest
    else k prev rest
  | [] => k prev rest

/-- Mandatory single character of a class. -/
def reqChar (cls : Char → Bool) (_prev : Option Char) (rest : Str)
    (k : Option Char → Str → Option Nat) : Option Nat :=
  match rest with
  | c :: cs => if cls c then (k (some c) cs).map (· + 1) else none
  | [] => none

/-- Character class `[A-Za-z0-9._%+-]` (local part of the email pattern). -/
def emailLocalClass (c : Char) : Bool :=
  c.isAlphanum || c == '.' || c == '_' || c == '%' || c == '+' || c == '-'

/-- Character class `[A-Za-z0-9.-]` (domain part of the email pattern). -/
def emailDomainClass (c : Char) : Bool :=
  c.isAlphanum || c == '.' || c == '-'

/-- Character class `[A-Z|a-z]` (top-level-domain part; note the literal
bar inside the class, exactly as in the source pattern). -/
def emailTldClass (c : Char) : Bool := c.isAlpha || c == '|'

/-- Matcher for the email pattern
`\b[A-Za-z0-9._%+-]+@[A-Za-z0-9.-]+\.[A-Z|a-z]{2,}\b` at a fixed starting
position, returning the length of the preferred match if any. -/
def emailMatchAt (prev : Option Char) (rest : Str) : Option Nat :=
  if boundary prev rest then
    classRep emailLocalClass 1 none prev rest (fun p1 r1 =>
      reqChar (fun c => c == '@') p1 r1 (fun p2 r2 =>
        classRep emailDomainClass 1 none p2 r2 (fun p3 r3 =>
          reqChar (fun c => c == '.') p3 r3 (fun p4 r4 =>
            classRep emailTldClass 2 none p4 r4 (fun p5 r5 =>
              if boundary p5 r5 then some 0 else none)))))
  else none

/-- Character class `[\s.-]` separating phone digit groups. -/
def sepClass (c : Char) : Bool := pySpace c || c == '.' || c == '-'

/-- The optional country-code group `(?:\+\d{1,2}\s?)?` of the phone
pattern: greedily try the group, falling back to skipping it. -/
def phoneCountry (prev : Option Char) (rest : Str)
    (k : Option Char → Str → Option Nat) : Option Nat :=
  match reqChar (fun c => c == '+') prev rest (fun p1 r1 =>
      classRep Char.isDigit 1 (some 2) p1 r1 (fun p2 r2 =>
        optChar pySpace p2 r2 k)) with
  | some n => some n
  | none => k prev rest

/-- Matcher for the phone pattern
`\b(?:\+\d{1,2}\s?)?\(?\d{3}\)?[\s.-]?\d{3}[\s.-]?\d{4}\b` at a fixed
starting position. -/
def phoneMatchAt (prev : Option Char) (rest : Str) : Option Nat :=
  if boundary prev rest then
    phoneCountry prev rest (fun p1 r1 =>
      optChar (fun c => c == '(') p1 r1 (fun p2 r2 =>
        classRep Char.isDigit 3 (some 3) p2 r2 (fun p3 r3 =>
          optChar (fun c => c == ')') p3 r3 (fun p4 r4 =>
            optChar sepClass p4 r4 (fun p5 r5 =>
              classRep Char.isDigit 3 (some 3) p5 r5 (fun p6 r6 =>
                optChar sepClass p6 r6 (fun p7 r7 =>
                  classRep Char.isDigit 4 (some 4) p7 r7 (fun p8 r8 =>
                    if boundary p8 r8 then some 0 else none))))))))
  else none

/-- Scan the text left to right, trying `mAt` at every position; return the
first (leftmost) position with a match together with the match length.
`prev` is the character before `rest` and `i` the index of `rest`. -/
def findFirstFrom (mAt : Option Char → Str → Option Nat)
    (prev : Option Char) : Str → Nat → Option (Nat × Nat)
  | rest, i =>
    match mAt prev rest with
    | some n => some (i, n)
    | none =>
      match rest with
      | [] => none
      | c :: cs => findFirstFrom mAt (some c) cs (i + 1)

/-- Leftmost match of `mAt` over the whole text. -/
def findFirstMatch (mAt : Option Char → Str → Option Nat) (t : Str) :
    Option (Nat × Nat) :=
  findFirstFrom mAt none t 0

/-- The character preceding position `i` of `t`, `none` at the start. -/
def prevAt (t : Str) (i : Nat) : Option Char :=
  if i = 0 then none else t[i - 1]?

/-- Run a matcher at absolute position `i` of `t`. -/
def matchAtPos (mAt : Option Char → Str → Option Nat) (t : Str) (i : Nat) :
    Option Nat :=
  mAt (prevAt t i) (t.drop i)

/-- First email match of the text, as `re.findall(...)[0]` would return it
(empty when there is no match). -/
def emailOf (t : Str) : Str :=
  match findFirstMatch emailMatchAt t with
  | some (i, n) => (t.drop i).take n
  | none => []

/-- First phone match of the text (empty when there is no match). -/
def phoneOf (t : Str) : Str :=
  match findFirstMatch phoneMatchAt t with
  | some (i, n) => (t.drop i).take n
  | none => []


/-- Lowercasing of a string, Python `str.lower()` on ASCII text. -/
def lowerStr (s : Str) : Str := s.map Char.toLower

/-- Prefix test on character lists. -/
def startsWithL : Str → Str → Bool
  | [], _ => true
  | _ :: _, [] => false
  | a :: as, b :: bs => a == b && startsWithL as bs

/-- Python substring test `needle in hay`. -/
def containsSub (needle : Str) : Str → Bool
  | [] => needle.isEmpty
  | c :: cs => startsWithL needle (c :: cs) || containsSub needle cs

/-- Python `hay.find(needle)`: index of the leftmost occurrence, if any. -/
def findSub? (needle : Str) : Str → Option Nat
  | [] => if needle.isEmpty then some 0 else none
  | c :: cs =>
    if startsWithL needle (c :: cs) then some 0
    else (findSub? needle cs).map (· + 1)

/-- Python `str.strip()` on ASCII text. -/
def pyStrip (s : Str) : Str :=
  ((s.dropWhile pySpace).reverse.dropWhile pySpace).reverse

/-- Insert into a duplicate-free accumulator, modelling `set.add`. -/
def sinsert (x : Str) (l : List Str) : List Str :=
  if x ∈ l then l else l ++ [x]

/-- The fixed skill vocabulary `skill_keywords` of the source. -/
def skillKeywords : List Str :=
  ["python".data, "java".data, "javascript".data, "react".data,
   "node.js".data, "sql".data, "aws".data, "azure".data, "gcp".data,
   "docker".data, "kubernetes".data, "tensorflow".data, "pytorch".data,
   "pandas".data, "numpy".data, "flask".data, "django".data]

/-- One iteration of the keyword loop:
`if kw.lower() in text.lower(): skills.add(kw)`. -/
def kwStep (t : Str) (acc : List Str) (kw : Str) : List Str :=
  if containsSub (lowerStr kw) (lowerStr t) then sinsert kw acc else acc

/-- Keyword-based skill extraction over the fixed vocabulary. -/
def keywordSkills (t : Str) : List Str :=
  skillKeywords.foldl (kwStep t) []

/-- A named entity produced by the NLP collaborator (`ent.text`,
`ent.label_`). -/
structure Entity where
  text : Str
  label : Str
deriving DecidableEq

/-- One iteration of the entity loop: organisations and products are added
to skills; organisations whose lowered text contains a university-like term
are appended to education. -/
def entStep (acc : List Str × List Str) (e : Entity) : List Str × List Str :=
  let sk :=
    if e.label = "ORG".data ∨ e.label = "PRODUCT".data then sinsert e.text acc.1
    else acc.1
  let ed :=
    if e.label = "ORG".data ∧
        (containsSub "university".data (lowerStr e.text) ∨
         containsSub "college".data (lowerStr e.text) ∨
         containsSub "institute".data (lowerStr e.text)) then
      acc.2 ++ [e.text]
    else acc.2
  (sk, ed)

/-- The guarded entity loop.  The NLP collaborator is opaque: its outcome is
either a list of entities or a failure, and the `try/except: pass` around
the loop makes a failure contribute nothing. -/
def entContrib (nlp : Except Unit (List Entity)) (skills0 : List Str) :
    List Str × List Str :=
  match nlp with
  | Except.error _ => (skills0, [])
  | Except.ok ents => ents.foldl entStep (skills0, [])

/-- The experience-section headers, in the priority order of the source. -/
def expHeaders : List Str :=
  ["experience".data, "work experience".data, "professional experience".data]

/-- Experience heuristic, the unrolled three-iteration loop of the source:
the first header (in priority order) contained in the lowered text wins; the
entry is the 1000-character slice of the original text at the leftmost
occurrence of that header, stripped; the `break` makes at most one entry. -/
def experienceOf (t : Str) : List Str :=
  match findSub? "experience".data (lowerStr t) with
  | some idx => [pyStrip ((t.drop idx).take 1000)]
  | none =>
    match findSub? "work experience".data (lowerStr t) with
    | some idx => [pyStrip ((t.drop idx).take 1000)]
    | none =>
      match findSub? "professional experience".data (lowerStr t) with
      | some idx => [pyStrip ((t.drop idx).take 1000)]
      | none => []

/-- The delimiter class of `re.split(r"[,\nâ€¢-]", resp)`.  The source file
contains the three characters `â`, `€`, `¢` (the UTF-8 bytes of a bullet
mis-decoded as cp1252), not the bullet character itself. -/
def ragDelims (c : Char) : Bool :=
  c == ',' || c == '\n' || c == 'â' || c == '€' || c == '¢' || c == '-'

/-- Split on single delimiter characters, keeping empty fragments, as
`re.split` with a one-character class does. -/
def splitOnAux (p : Char → Bool) : Str → Str → List Str
  | [], cur => [cur.reverse]
  | c :: cs, cur =>
    if p c then cur.reverse :: splitOnAux p cs [] else splitOnAux p cs (c :: cur)

/-- Split a string on the delimiter class `p`. -/
def splitOn (p : Char → Bool) (s : Str) : List Str := splitOnAux p s []

/-- One iteration of the retrieval-response loop:
`s = s.strip(); if s: skills.add(s)`. -/
def ragFragStep (acc : List Str) (s : Str) : List Str :=
  if pyStrip s ≠ [] then sinsert (pyStrip s) acc else acc

/-- Add the stripped non-empty fragments of a retrieval response to the
skills accumulator. -/
def ragAdd (resp : Str) (skills : List Str) : List Str :=
  (splitOn ragDelims resp).foldl ragFragStep skills

/-- Instance state and collaborator outcomes for one call:
`use_rag` as set by the constructor, the opaque NLP outcome, and the
opaque outcome of the guarded retrieval block (`Except.error` models any
exception inside it, which the code swallows). -/
structure Env where
  use_rag : Bool
  nlp : Except Unit (List Entity)
  rag : Except Unit Str

/-- The guarded retrieval-augmented step: only runs when `use_rag` is set;
a failure or a falsy response contributes nothing. -/
def ragStep (env : Env) (skills : List Str) : List Str :=
  if env.use_rag then
    match env.rag with
    | Except.ok resp => if resp ≠ [] then ragAdd resp skills else skills
    | Except.error _ => skills
  else skills

/-- Deduplication of the education list, modelling `list(set(education))`. -/
def eduDedup (l : List Str) : List Str := l.foldl (fun acc x => sinsert x acc) []

/-- The structured record returned by `extract_information`
(`contact_info` flattened into its two keys). -/
structure ResumeRecord where
  raw_text : Str
  skills : List Str
  education : List Str
  experience : List Str
  email : Str
  phone : Str
deriving DecidableEq

/-- Embedding of `ResumeParser.extract_information`: contact regexes, then
keyword skills, then the guarded entity loop, then the experience
heuristic, then the guarded retrieval step. -/
def extract_information (env : Env) (t : Str) : ResumeRecord :=
  let sk0 := keywordSkills t
  let skEd := entContrib env.nlp sk0
  { raw_text := t
    skills := ragStep env skEd.1
    education := eduDedup skEd.2
    experience := experienceOf t
    email := emailOf t
    phone := phoneOf t }

/-- Embedding of `ResumeParser.parse_resume`: falsy (empty) input yields
`none`, otherwise the call is delegated to `extract_information`. -/
def parse_resume (env : Env) (t : Str) : Option ResumeRecord :=
  if t = [] then none else some (extract_information env t)

/-- Constructor logic for `use_rag`: a retrieval capability is attempted
only when the API key is truthy, and acquisition may still fail. -/
def mkUseRag (apiKey : Option Str) (acquireOk : Bool) : Bool :=
  match apiKey with
  | none => false
  | some k => if k = [] then false else acquireOk

/-- An environment with the no-op NLP fallback and retrieval disabled. -/
def noRagEnv : Env :=
  { use_rag := false, nlp := Except.ok [], rag := Except.error () }


/-- The end-to-end example input of the specification. -/
def c1text : Str :=
  "Contact: jane@example.com, (555) 123-4567. Experience: Built systems using Python and Docker at University of Example.".data

-- Fidelity checks of the matchers against the reference behaviour of
-- Python `re.findall` on the same inputs.
example : emailOf "a@b.co".data = "a@b.co".data := by decide
example : emailOf "a@b.c".data = [] := by decide
example : emailOf "a@b.co.uk".data = "a@b.co.uk".data := by decide
example : emailOf "x a@b.co-".data = "a@b.co".data := by decide
example : emailOf "a@b.co|".data = "a@b.co".data := by decide
example : emailOf ".a@b..com".data = "a@b..com".data := by decide
example : emailOf "a@b.c0m x@y.zz".data = "x@y.zz".data := by decide
example : emailOf "9a@b.cd-e.ff".data = "9a@b.cd-e.ff".data := by decide
example : phoneOf "+1 (555) 123-4567".data = "555) 123-4567".data := by decide
example : phoneOf "+12 555 123 4567".data = "555 123 4567".data := by decide
example : phoneOf "555.123.4567".data = "555.123.4567".data := by decide
example : phoneOf "5551234567".data = "5551234567".data := by decide
example : phoneOf "12345678901".data = [] := by decide
example : phoneOf "+1(555)123-4567".data = "(555)123-4567".data := by decide
example : phoneOf "a555) 123-4567".data = [] := by decide
example : phoneOf "x(555) 123-4567".data = "(555) 123-4567".data := by decide
example : phoneOf "55) 123-45678".data = [] := by decide
example : phoneOf "(555)123-45678".data = [] := by decide

example : keywordSkills "Uses PYTHON and Docker".data
    = ["python".data, "docker".data] := by decide
example : splitOn ragDelims "a-b,c•dâe".data
    = ["a".data, "b".data, "c•d".data, "e".data] := by decide
example : experienceOf "My Work Experience: things".data
    = ["Experience: things".data] := by decide

/-!  Helper lemmas about the set-like accumulators. -/

theorem mem_sinsert {x y : Str} {l : List Str} :
    x ∈ sinsert y l ↔ x = y ∨ x ∈ l := by
  by_cases hyl : y ∈ l
  · simp only [sinsert, if_pos hyl]
    constructor
    · exact Or.inr
    · rintro (rfl | hx)
      · exact hyl
      · exact hx
  · simp only [sinsert, if_neg hyl, List.mem_append, List.mem_singleton]
    tauto

theorem sinsert_nodup {y : Str} {l : List Str} (h : l.Nodup) :
    (sinsert y l).Nodup := by
  by_cases hyl : y ∈ l
  · simpa only [sinsert, if_pos hyl] using h
  · simp only [sinsert, if_neg hyl]
    simp [List.nodup_append, h, hyl]

theorem kwFold_mem (t : Str) :
    ∀ (ks : List Str) (acc : List Str) (x : Str),
      x ∈ ks.foldl (kwStep t) acc ↔
        x ∈ acc ∨ (x ∈ ks ∧ containsSub (lowerStr x) (lowerStr t) = true) := by
  intro ks
  induction ks with
  | nil => simp
  | cons k ks ih =>
    intro acc x
    rw [List.foldl_cons, ih]
    unfold kwStep
    by_cases hk : containsSub (lowerStr k) (lowerStr t) = true
    · simp only [if_pos hk, mem_sinsert, List.mem_cons]
      constructor
      · rintro ((rfl | hx) | ⟨hks, hp⟩)
        · exact Or.inr ⟨Or.inl rfl, hk⟩
        · exact Or.inl hx
        · exact Or.inr ⟨Or.inr hks, hp⟩
      · rintro (hx | ⟨(rfl | hks), hp⟩)
        · exact Or.inl (Or.inr hx)
        · exact Or.inl (Or.inl rfl)
        · exact Or.inr ⟨hks, hp⟩
    · simp only [if_neg hk, List.mem_cons]
      constructor
      · rintro (hx | ⟨hks, hp⟩)
        · exact Or.inl hx
        · exact Or.inr ⟨Or.inr hks, hp⟩
      · rintro (hx | ⟨(rfl | hks), hp⟩)
        · exact Or.inl hx
        · exact absurd hp hk
        · exact Or.inr ⟨hks, hp⟩

theorem kwFold_nodup (t : Str) :
    ∀ (ks : List Str) (acc : List Str), acc.Nodup →
      (ks.foldl (kwStep t) acc).Nodup := by
  intro ks
  induction ks with
  | nil => exact fun acc h => h
  | cons k ks ih =>
    intro acc h
    rw [List.foldl_cons]
    apply ih
    unfold kwStep
    split
    · exact sinsert_nodup h
    · exact h

theorem kwFold_id (t : Str) :
    ∀ (ks : List Str), (∀ k ∈ ks, containsSub (lowerStr k) (lowerStr t) = false) →
      ∀ (acc : List Str), ks.foldl (kwStep t) acc = acc := by
  intro ks
  induction ks with
  | nil => intro _ acc; rfl
  | cons k ks ih =>
    intro h acc
    rw [List.foldl_cons]
    have hk : containsSub (lowerStr k) (lowerStr t) = false := h k (List.mem_cons_self k ks)
    unfold kwStep
    rw [hk]
    simp only [Bool.false_eq_true, if_false]
    exact ih (fun k2 hk2 => h k2 (List.mem_cons_of_mem k hk2)) acc

theorem entStep_fst_mem {acc : List Str × List Str} {e : Entity} {x : Str}
    (h : x ∈ acc.1) : x ∈ (entStep acc e).1 := by
  unfold entStep
  dsimp only
  split
  · exact mem_sinsert.mpr (Or.inr h)
  · exact h

theorem entStep_fst_nodup {acc : List Str × List Str} {e : Entity}
    (h : acc.1.Nodup) : (entStep acc e).1.Nodup := by
  unfold entStep
  dsimp only
  split
  · exact sinsert_nodup h
  · exact h

theorem entFold_fst_mem :
    ∀ (ents : List Entity) (acc : List Str × List Str) (x : Str),
      x ∈ acc.1 → x ∈ (ents.foldl entStep acc).1 := by
  intro ents
  induction ents with
  | nil => exact fun acc x h => h
  | cons e ents ih =>
    intro acc x h
    rw [List.foldl_cons]
    exact ih _ x (entStep_fst_mem h)

theorem entFold_fst_nodup :
    ∀ (ents : List Entity) (acc : List Str × List Str),
      acc.1.Nodup → (ents.foldl entStep acc).1.Nodup := by
  intro ents
  induction ents with
  | nil => exact fun acc h => h
  | cons e ents ih =>
    intro acc h
    rw [List.foldl_cons]
    exact ih _ (entStep_fst_nodup h)

theorem entContrib_fst_mem {nlpO : Except Unit (List Entity)}
    {s0 : List Str} {x : Str} (h : x ∈ s0) : x ∈ (entContrib nlpO s0).1 := by
  cases nlpO with
  | error e => exact h
  | ok ents => exact entFold_fst_mem ents (s0, []) x h

theorem entContrib_fst_nodup {nlpO : Except Unit (List Entity)}
    {s0 : List Str} (h : s0.Nodup) : (entContrib nlpO s0).1.Nodup := by
  cases nlpO with
  | error e => exact h
  | ok ents => exact entFold_fst_nodup ents (s0, []) h

theorem ragFold_mem :
    ∀ (frags : List Str) (acc : List Str) (x : Str),
      x ∈ acc → x ∈ frags.foldl ragFragStep acc := by
  intro frags
  induction frags with
  | nil => exact fun acc x h => h
  | cons f frags ih =>
    intro acc x h
    rw [List.foldl_cons]
    apply ih
    unfold ragFragStep
    split
    · exact mem_sinsert.mpr (Or.inr h)
    · exact h

theorem ragFold_nodup :
    ∀ (frags : List Str) (acc : List Str), acc.Nodup →
      (frags.foldl ragFragStep acc).Nodup := by
  intro frags
  induction frags with
  | nil => exact fun acc h => h
  | cons f frags ih =>
    intro acc h
    rw [List.foldl_cons]
    apply ih
    unfold ragFragStep
    split
    · exact sinsert_nodup h
    · exact h

theorem ragStep_mem {env : Env} {skills : List Str} {x : Str}
    (h : x ∈ skills) : x ∈ ragStep env skills := by
  unfold ragStep
  split
  · cases env.rag with
    | ok resp =>
      dsimp only
      split
      · exact ragFold_mem _ skills x h
      · exact h
    | error e => exact h
  · exact h

theorem ragStep_nodup {env : Env} {skills : List Str}
    (h : skills.Nodup) : (ragStep env skills).Nodup := by
  unfold ragStep
  split
  · cases env.rag with
    | ok resp =>
      dsimp only
      split
      · exact ragFold_nodup _ skills h
      · exact h
    | error e => exact h
  · exact h

/-!  Correctness of the left-to-right scan: the returned match is at the
leftmost position where the matcher succeeds. -/

theorem scanFrom_spec (mAt : Option Char → Str → Option Nat) (t : Str) :
    ∀ (rest : Str) (k : Nat), t.drop k = rest →
      (∀ i n, findFirstFrom mAt (prevAt t k) rest k = some (i, n) →
        k ≤ i ∧ matchAtPos mAt t i = some n ∧
          ∀ j, k ≤ j → j < i → matchAtPos mAt t j = none) ∧
      (findFirstFrom mAt (prevAt t k) rest k = none →
        ∀ j, k ≤ j → j ≤ t.length → matchAtPos mAt t j = none) := by
  intro rest
  induction rest with
  | nil =>
    intro k hk
    have hlen : t.length ≤ k := List.drop_eq_nil_iff.mp hk
    constructor
    · intro i n h
      rw [findFirstFrom] at h
      cases hm : mAt (prevAt t k) [] with
      | some m =>
        rw [hm] at h
        simp only [Option.some.injEq, Prod.mk.injEq] at h
        obtain ⟨rfl, rfl⟩ := h
        refine ⟨Nat.le_refl _, ?_, ?_⟩
        · unfold matchAtPos
          rw [hk, hm]
        · intro j h1 h2
          omega
      | none =>
        rw [hm] at h
        cases h
    · intro h j hj1 hj2
      have hjk : j = k := by omega
      subst hjk
      rw [findFirstFrom] at h
      cases hm : mAt (prevAt t j) [] with
      | some m => rw [hm] at h; cases h
      | none =>
        unfold matchAtPos
        rw [hk, hm]
  | cons c cs ih =>
    intro k hk
    have hck : t[k]? = some c := by
      have h0 := List.getElem?_drop t k 0
      rw [hk] at h0
      simpa using h0.symm
    have hdrop : t.drop (k + 1) = cs := by
      have h0 := List.tail_drop t k
      rw [hk] at h0
      simpa using h0.symm
    have hprev : prevAt t (k + 1) = some c := by
      unfold prevAt
      rw [if_neg (Nat.succ_ne_zero k), Nat.add_sub_cancel]
      exact hck
    obtain ⟨ih1, ih2⟩ := ih (k + 1) hdrop
    constructor
    · intro i n h
      rw [findFirstFrom] at h
      cases hm : mAt (prevAt t k) (c :: cs) with
      | some m =>
        rw [hm] at h
        simp only [Option.some.injEq, Prod.mk.injEq] at h
        obtain ⟨rfl, rfl⟩ := h
        refine ⟨Nat.le_refl _, ?_, ?_⟩
        · unfold matchAtPos
          rw [hk, hm]
        · intro j h1 h2
          omega
      | none =>
        rw [hm] at h
        rw [← hprev] at h
        obtain ⟨h1, h2, h3⟩ := ih1 i n h
        refine ⟨by omega, h2, ?_⟩
        intro j hj1 hj2
        rcases Nat.eq_or_lt_of_le hj1 with rfl | hlt
        · unfold matchAtPos
          rw [hk, hm]
        · exact h3 j hlt hj2
    · intro h j hj1 hj2
      rw [findFirstFrom] at h
      cases hm : mAt (prevAt t k) (c :: cs) with
      | some m => rw [hm] at h; cases h
      | none =>
        rw [hm] at h
        rw [← hprev] at h
        rcases Nat.eq_or_lt_of_le hj1 with rfl | hlt
        · unfold matchAtPos
          rw [hk, hm]
        · exact ih2 h j hlt hj2

theorem prevAt_zero (t : Str) : prevAt t 0 = none := rfl

theorem matchAtPos_beyond (mAt : Option Char → Str → Option Nat)
    (hnil : mAt none [] = none) (t : Str) (j : Nat) (hj : t.length < j) :
    matchAtPos mAt t j = none := by
  unfold matchAtPos prevAt
  have h1 : t.drop j = [] := List.drop_eq_nil_iff.mpr (by omega)
  have h2 : t[j - 1]? = none := by
    rw [List.getElem?_eq_none]
    omega
  rw [h1]
  have hj0 : ¬ j = 0 := by omega
  rw [if_neg hj0, h2]
  exact hnil

theorem findFirstMatch_some (mAt : Option Char → Str → Option Nat)
    (t : Str) (i n : Nat) (h : findFirstMatch mAt t = some (i, n)) :
    matchAtPos mAt t i = some n ∧ ∀ j, j < i → matchAtPos mAt t j = none := by
  have hs := (scanFrom_spec mAt t t 0 (by simp)).1 i n (by exact h)
  exact ⟨hs.2.1, fun j hj => hs.2.2 j (Nat.zero_le j) hj⟩

theorem findFirstMatch_none (mAt : Option Char → Str → Option Nat)
    (hnil : mAt none [] = none) (t : Str) (h : findFirstMatch mAt t = none) :
    ∀ j, matchAtPos mAt t j = none := by
  intro j
  rcases le_or_lt j t.length with hj | hj
  · exact (scanFrom_spec mAt t t 0 (by simp)).2 (by exact h) j (Nat.zero_le j) hj
  · exact matchAtPos_beyond mAt hnil t j hj

theorem emailMatchAt_nil : emailMatchAt none [] = none := by decide

theorem phoneMatchAt_nil : phoneMatchAt none [] = none := by decide

/-!  Case-insensitivity and length lemmas. -/

theorem startsWithL_map (f : Char → Char) :
    ∀ (v t : Str), startsWithL v t = true →
      startsWithL (v.map f) (t.map f) = true := by
  intro v
  induction v with
  | nil => intro t _; rfl
  | cons a as ih =>
    intro t h
    cases t with
    | nil => cases h
    | cons b bs =>
      unfold startsWithL at h
      rw [Bool.and_eq_true] at h
      obtain ⟨hab, hrest⟩ := h
      have hab2 : a = b := by simpa using hab
      subst hab2
      simp only [List.map_cons]
      unfold startsWithL
      rw [Bool.and_eq_true]
      exact ⟨by simp, ih bs hrest⟩

theorem containsSub_lower {v t : Str} (h : containsSub v t = true) :
    containsSub (lowerStr v) (lowerStr t) = true := by
  induction t with
  | nil =>
    unfold containsSub at h ⊢
    unfold lowerStr
    cases v with
    | nil => rfl
    | cons a as => cases h
  | cons c cs ih =>
    unfold containsSub at h
    rw [Bool.or_eq_true] at h
    show containsSub (lowerStr v) (Char.toLower c :: lowerStr cs) = true
    unfold containsSub
    rw [Bool.or_eq_true]
    rcases h with h | h
    · exact Or.inl (startsWithL_map Char.toLower v (c :: cs) h)
    · exact Or.inr (ih h)

theorem pyStrip_length_le (s : Str) : (pyStrip s).length ≤ s.length := by
  unfold pyStrip
  have h1 : ((s.dropWhile pySpace).reverse.dropWhile pySpace).length
      ≤ (s.dropWhile pySpace).reverse.length :=
    (List.dropWhile_sublist pySpace).length_le
  have h2 : (s.dropWhile pySpace).length ≤ s.length :=
    (List.dropWhile_sublist pySpace).length_le
  simp only [List.length_reverse] at h1 ⊢
  omega

theorem experienceOf_entry_le (t : Str) :
    ∀ e ∈ experienceOf t, e.length ≤ 1000 := by
  have hlen : ∀ idx, (pyStrip ((t.drop idx).take 1000)).length ≤ 1000 := by
    intro idx
    calc (pyStrip ((t.drop idx).take 1000)).length
        ≤ ((t.drop idx).take 1000).length := pyStrip_length_le _
      _ ≤ 1000 := by
          rw [List.length_take]
          omega
  intro e he
  unfold experienceOf at he
  cases h1 : findSub? "experience".data (lowerStr t) with
  | some idx =>
    rw [h1] at he
    simp only [List.mem_singleton] at he
    subst he
    exact hlen idx
  | none =>
    rw [h1] at he
    cases h2 : findSub? "work experience".data (lowerStr t) with
    | some idx =>
      rw [h2] at he
      simp only [List.mem_singleton] at he
      subst he
      exact hlen idx
    | none =>
      rw [h2] at he
      cases h3 : findSub? "professional experience".data (lowerStr t) with
      | some idx =>
        rw [h3] at he
        simp only [List.mem_singleton] at he
        subst he
        exact hlen idx
      | none =>
        rw [h3] at he
        cases he

/-!  The claims. -/

/-- C1 counterexample: on the end-to-end example input (no-op NLP,
retrieval disabled) the extracted phone is not `"(555) 123-4567"`; the
leading word boundary of the phone pattern cannot match before the opening
parenthesis, so the match starts inside it. -/
theorem C1_counterexample :
    (extract_information noRagEnv c1text).phone ≠ "(555) 123-4567".data := by
  decide

/-- C1 (amended): on the end-to-end example input, the email is
`jane@example.com`, the phone is `555) 123-4567` (opening parenthesis
excluded), the skills contain `python` and `docker`, and the single
experience entry is the tail of the input starting at offset 43, which is
the character offset of `"Experience:"`. -/
theorem C1_amended :
    (extract_information noRagEnv c1text).email = "jane@example.com".data
  ∧ (extract_information noRagEnv c1text).phone = "555) 123-4567".data
  ∧ "python".data ∈ (extract_information noRagEnv c1text).skills
  ∧ "docker".data ∈ (extract_information noRagEnv c1text).skills
  ∧ findSub? "experience:".data (lowerStr c1text) = some 43
  ∧ (extract_information noRagEnv c1text).experience = [c1text.drop 43]
  ∧ (extract_information noRagEnv c1text).experience.length = 1 := by
  refine ⟨by decide, by decide, by decide, by decide, by decide, by decide,
    by decide⟩

/-- C2: `extract_information` is total and its sub-extractors are
independent: the raw text, contact fields and experience never depend on
the NLP or retrieval outcomes; a failed NLP step contributes nothing to
education and leaves the skills exactly as the other extractors produce
them; a failed retrieval step leaves the skills exactly as the keyword and
entity extractors produce them. -/
theorem C2_fault_isolation (env : Env) (t : Str) :
    (extract_information env t).raw_text = t
  ∧ (extract_information env t).email = emailOf t
  ∧ (extract_information env t).phone = phoneOf t
  ∧ (extract_information env t).experience = experienceOf t
  ∧ (extract_information { env with nlp := Except.error () } t).education = []
  ∧ (extract_information { env with nlp := Except.error () } t).skills
      = ragStep { env with nlp := Except.error () } (keywordSkills t)
  ∧ (extract_information { env with rag := Except.error () } t).skills
      = (entContrib env.nlp (keywordSkills t)).1 := by
  obtain ⟨ur, nl, rg⟩ := env
  refine ⟨rfl, rfl, rfl, rfl, rfl, rfl, ?_⟩
  show ragStep ⟨ur, nl, Except.error ()⟩ (entContrib nl (keywordSkills t)).1
      = (entContrib nl (keywordSkills t)).1
  unfold ragStep
  split <;> rfl

/-- C4 (code bug): the response splitter does not treat the bullet
character as a delimiter; the source contains the mojibake characters
`â`, `€`, `¢` (the UTF-8 bytes of the bullet mis-decoded) instead, so a
bullet-separated retrieval response is added to the skills as one
unsplit fragment. -/
theorem C4_bullet_mojibake :
    ragDelims '•' = false
  ∧ ragDelims 'â' = true
  ∧ ragDelims '€' = true
  ∧ ragDelims '¢' = true
  ∧ splitOn ragDelims "Python • Docker".data = ["Python • Docker".data]
  ∧ (extract_information
      { use_rag := true, nlp := Except.ok [],
        rag := Except.ok "Python • Docker".data }
      "zzz".data).skills = ["Python • Docker".data] := by
  refine ⟨by decide, by decide, by decide, by decide, by decide, by decide⟩

/-- C7: when no skill keyword occurs in the lowered text, the NLP outcome
is the no-op fallback (no entities) and retrieval is disabled, the skills
and education are empty while the regex contact extraction still populates
the contact fields from the same input. -/
theorem C7_no_keywords (env : Env) (t : Str)
    (hk : ∀ kw ∈ skillKeywords,
      containsSub (lowerStr kw) (lowerStr t) = false)
    (hn : env.nlp = Except.ok [])
    (hr : env.use_rag = false) :
    (extract_information env t).skills = []
  ∧ (extract_information env t).education = []
  ∧ (extract_information env t).email = emailOf t
  ∧ (extract_information env t).phone = phoneOf t := by
  obtain ⟨ur, nl, rg⟩ := env
  dsimp only at hn hr
  subst hn
  subst hr
  have hkw : keywordSkills t = [] := kwFold_id t skillKeywords hk []
  refine ⟨?_, rfl, rfl, rfl⟩
  show ragStep ⟨false, Except.ok [], rg⟩
      (entContrib (Except.ok []) (keywordSkills t)).1 = []
  rw [show (entContrib (Except.ok []) (keywordSkills t)).1 = keywordSkills t
    from rfl, hkw]
  rfl

/-- C7 witness: a concrete keyword-free text whose email is still
extracted. -/
theorem C7_witness :
    (∀ kw ∈ skillKeywords,
      containsSub (lowerStr kw) (lowerStr "email: a@b.cd".data) = false)
  ∧ (extract_information noRagEnv "email: a@b.cd".data).skills = []
  ∧ (extract_information noRagEnv "email: a@b.cd".data).email
      = emailOf "email: a@b.cd".data
  ∧ emailOf "email: a@b.cd".data = "a@b.cd".data := by
  have h := C7_no_keywords noRagEnv "email: a@b.cd".data (by decide) rfl rfl
  exact ⟨by decide, h.1, h.2.2.1, by decide⟩

/-- C8: the public entry point returns `none` on empty (falsy) input and
otherwise returns exactly the result of `extract_information`. -/
theorem C8_parse_guard (env : Env) :
    parse_resume env [] = none
  ∧ ∀ t : Str, t ≠ [] →
      parse_resume env t = some (extract_information env t) := by
  constructor
  · rfl
  · intro t ht
    unfold parse_resume
    rw [if_neg ht]

/-- C8 witness: concrete instances of both branches of the guard. -/
theorem C8_witness :
    parse_resume noRagEnv [] = none
  ∧ "a".data ≠ ([] : Str)
  ∧ parse_resume noRagEnv "a".data
      = some (extract_information noRagEnv "a".data) := by
  refine ⟨(C8_parse_guard noRagEnv).1, by decide,
    (C8_parse_guard noRagEnv).2 "a".data (by decide)⟩

/-- C9: with no API key configured (absent or empty), `use_rag` is false
regardless of whether acquisition would succeed, and the result of
`extract_information` is identical for any two retrieval-backend
outcomes (two-run noninterference). -/
theorem C9_retrieval_noninterference (apiKey : Option Str) (acq : Bool)
    (nlpO : Except Unit (List Entity)) (rag1 rag2 : Except Unit Str)
    (t : Str) (h : apiKey = none ∨ apiKey = some []) :
    mkUseRag apiKey acq = false
  ∧ extract_information ⟨mkUseRag apiKey acq, nlpO, rag1⟩ t
      = extract_information ⟨mkUseRag apiKey acq, nlpO, rag2⟩ t := by
  have hfalse : mkUseRag apiKey acq = false := by
    rcases h with rfl | rfl
    · rfl
    · rfl
  refine ⟨hfalse, ?_⟩
  rw [hfalse]
  rfl

/-- C9 witness: a reachable backend (a successful response) and an
unreachable one (an exception) produce the same record when no key is
configured. -/
theorem C9_witness :
    mkUseRag none true = false
  ∧ extract_information
        ⟨mkUseRag none true, Except.ok [], Except.ok "X".data⟩ "a".data
      = extract_information
        ⟨mkUseRag none true, Except.ok [], Except.error ()⟩ "a".data := by
  exact C9_retrieval_noninterference none true (Except.ok [])
    (Except.ok "X".data) (Except.error ()) "a".data (Or.inl rfl)

/-- C3: the experience heuristic checks the three headers in order, the
first one contained in the lowered text wins, the single entry is the
stripped 1000-character slice of the original text at that header's
leftmost offset, no header yields no entry, at most one entry is ever
produced, and every entry has length at most 1000. -/
theorem C3_experience_heuristic (env : Env) (t : Str) :
    (extract_information env t).experience = experienceOf t
  ∧ (extract_information env t).experience.length ≤ 1
  ∧ ((∀ hdr ∈ expHeaders, findSub? hdr (lowerStr t) = none) →
      experienceOf t = [])
  ∧ (∀ idx, findSub? "experience".data (lowerStr t) = some idx →
      experienceOf t = [pyStrip ((t.drop idx).take 1000)])
  ∧ (findSub? "experience".data (lowerStr t) = none →
      ∀ idx, findSub? "work experience".data (lowerStr t) = some idx →
        experienceOf t = [pyStrip ((t.drop idx).take 1000)])
  ∧ (findSub? "experience".data (lowerStr t) = none →
      findSub? "work experience".data (lowerStr t) = none →
      ∀ idx, findSub? "professional experience".data (lowerStr t) = some idx →
        experienceOf t = [pyStrip ((t.drop idx).take 1000)])
  ∧ (∀ e ∈ experienceOf t, e.length ≤ 1000) := by
  refine ⟨rfl, ?_, ?_, ?_, ?_, ?_, experienceOf_entry_le t⟩
  · show (experienceOf t).length ≤ 1
    unfold experienceOf
    cases findSub? "experience".data (lowerStr t) with
    | some idx => exact Nat.le_refl 1
    | none =>
      cases findSub? "work experience".data (lowerStr t) with
      | some idx => exact Nat.le_refl 1
      | none =>
        cases findSub? "professional experience".data (lowerStr t) with
        | some idx => exact Nat.le_refl 1
        | none => exact Nat.zero_le 1
  · intro hall
    have h1 := hall "experience".data (by unfold expHeaders; simp)
    have h2 := hall "work experience".data (by unfold expHeaders; simp)
    have h3 := hall "professional experience".data (by unfold expHeaders; simp)
    unfold experienceOf
    rw [h1, h2, h3]
  · intro idx hidx
    unfold experienceOf
    rw [hidx]
  · intro h1 idx hidx
    unfold experienceOf
    rw [h1, hidx]
  · intro h1 h2 idx hidx
    unfold experienceOf
    rw [h1, h2, hidx]

/-- C3 witness: a text where the first header is found at offset 3, and a
text containing no header. -/
theorem C3_witness :
    findSub? "experience".data (lowerStr "My Experience: stuff".data) = some 3
  ∧ experienceOf "My Experience: stuff".data
      = [pyStrip ((("My Experience: stuff".data).drop 3).take 1000)]
  ∧ (∀ hdr ∈ expHeaders, findSub? hdr (lowerStr "abc".data) = none)
  ∧ experienceOf "abc".data = [] := by
  refine ⟨by decide, (C3_experience_heuristic noRagEnv
      "My Experience: stuff".data).2.2.2.1 3 (by decide), by decide,
    (C3_experience_heuristic noRagEnv "abc".data).2.2.1 (by decide)⟩

/-- C5: the extracted email is the leftmost match of the email pattern
(with the backtracking-preferred length at that position), and the empty
string when the pattern matches nowhere. -/
theorem C5_email_leftmost (env : Env) (t : Str) :
    (∀ i n, matchAtPos emailMatchAt t i = some n →
      (∀ j, j < i → matchAtPos emailMatchAt t j = none) →
      (extract_information env t).email = (t.drop i).take n)
  ∧ ((∀ i, matchAtPos emailMatchAt t i = none) →
      (extract_information env t).email = []) := by
  have hemail : (extract_information env t).email = emailOf t := rfl
  constructor
  · intro i n hi hleft
    rw [hemail]
    unfold emailOf
    cases hf : findFirstMatch emailMatchAt t with
    | none =>
      exfalso
      have h0 := findFirstMatch_none emailMatchAt emailMatchAt_nil t hf i
      rw [h0] at hi
      cases hi
    | some p =>
      obtain ⟨i0, n0⟩ := p
      obtain ⟨h1, h2⟩ := findFirstMatch_some emailMatchAt t i0 n0 hf
      have hii : i = i0 := by
        rcases lt_trichotomy i i0 with hlt | heq | hgt
        · rw [h2 i hlt] at hi
          cases hi
        · exact heq
        · rw [hleft i0 hgt] at h1
          cases h1
      subst hii
      rw [h1] at hi
      injection hi with hn
      rw [hn]
  · intro hnone
    rw [hemail]
    unfold emailOf
    cases hf : findFirstMatch emailMatchAt t with
    | none => rfl
    | some p =>
      obtain ⟨i0, n0⟩ := p
      obtain ⟨h1, _⟩ := findFirstMatch_some emailMatchAt t i0 n0 hf
      rw [hnone i0] at h1
      cases h1

/-- C5 witness: a concrete leftmost match and a concrete matchless text. -/
theorem C5_witness :
    (matchAtPos emailMatchAt " a@b.cd".data 1 = some 6
      ∧ (extract_information noRagEnv " a@b.cd".data).email = "a@b.cd".data)
  ∧ ((∀ i, matchAtPos emailMatchAt "abc".data i = none)
      ∧ (extract_information noRagEnv "abc".data).email = []) := by
  have hnone : ∀ i, matchAtPos emailMatchAt "abc".data i = none :=
    findFirstMatch_none emailMatchAt emailMatchAt_nil "abc".data (by decide)
  have hleft : ∀ j, j < 1 → matchAtPos emailMatchAt " a@b.cd".data j = none := by
    intro j hj
    have hj0 : j = 0 := by omega
    subst hj0
    decide
  have h1 := (C5_email_leftmost noRagEnv " a@b.cd".data).1 1 6 (by decide) hleft
  refine ⟨⟨by decide, ?_⟩, hnone, (C5_email_leftmost noRagEnv "abc".data).2 hnone⟩
  rw [h1]
  decide

theorem count_eq_one_nodup :
    ∀ (l : List Str), l.Nodup → ∀ a ∈ l, l.count a = 1 := by
  intro l
  induction l with
  | nil =>
    intro _ a ha
    cases ha
  | cons b bs ih =>
    intro hnd a ha
    rw [List.count_cons]
    rcases List.mem_cons.mp ha with rfl | hmem
    · have hnotin : a ∉ bs := (List.nodup_cons.mp hnd).1
      have hz : bs.count a = 0 := List.count_eq_zero.mpr hnotin
      rw [hz]
      simp
    · have hbs : bs.Nodup := (List.nodup_cons.mp hnd).2
      have hne : a ≠ b := by
        rintro rfl
        exact (List.nodup_cons.mp hnd).1 hmem
      have hba : ¬ b = a := fun h => hne h.symm
      rw [ih hbs a hmem]
      simp [hba]

/-- C6: keyword skill matching is case-insensitive substring matching
against the 17-term vocabulary; any casing variant of a keyword occurring
in the text contributes the canonical vocabulary form, exactly once (the
keyword set, and the final skills list, are duplicate-free). -/
theorem C6_keyword_matching (env : Env) (t : Str) :
    skillKeywords.length = 17
  ∧ (∀ kw, kw ∈ keywordSkills t ↔
      (kw ∈ skillKeywords ∧ containsSub (lowerStr kw) (lowerStr t) = true))
  ∧ (keywordSkills t).Nodup
  ∧ (∀ kw, kw ∈ keywordSkills t → (keywordSkills t).count kw = 1)
  ∧ (∀ kw, kw ∈ skillKeywords → ∀ v, lowerStr v = lowerStr kw →
      containsSub v t = true → kw ∈ keywordSkills t)
  ∧ (∀ kw, kw ∈ keywordSkills t → kw ∈ (extract_information env t).skills)
  ∧ (extract_information env t).skills.Nodup := by
  have hmem : ∀ kw, kw ∈ keywordSkills t ↔
      (kw ∈ skillKeywords ∧ containsSub (lowerStr kw) (lowerStr t) = true) := by
    intro kw
    unfold keywordSkills
    rw [kwFold_mem]
    simp
  have hnd : (keywordSkills t).Nodup := kwFold_nodup t skillKeywords [] List.nodup_nil
  refine ⟨rfl, hmem, hnd, ?_, ?_, ?_, ?_⟩
  · exact fun kw hkw => count_eq_one_nodup (keywordSkills t) hnd kw hkw
  · intro kw hkw v hv hvt
    refine (hmem kw).mpr ⟨hkw, ?_⟩
    rw [← hv]
    exact containsSub_lower hvt
  · intro kw hkw
    exact ragStep_mem (entContrib_fst_mem hkw)
  · exact ragStep_nodup (entContrib_fst_nodup hnd)

/-- C6 witness: an upper-case occurrence contributes the canonical
lower-case vocabulary form. -/
theorem C6_witness :
    "python".data ∈ keywordSkills "Uses PYTHON daily".data := by
  exact (C6_keyword_matching noRagEnv "Uses PYTHON daily".data).2.2.2.2.1
    "python".data (by decide) "PYTHON".data (by decide) (by decide)

/-- C10 (implicit behaviour): the phone pattern can never match starting
at an opening parenthesis that is preceded by whitespace or starts the
text, because the leading word boundary fails there; on the example text
the extracted phone therefore excludes the opening parenthesis. -/
theorem C10_paren_excluded (t : Str) (i : Nat)
    (hc : (t.drop i).head? = some '(')
    (hw : prevAt t i = none ∨ ∃ c, prevAt t i = some c ∧ pySpace c = true) :
    matchAtPos phoneMatchAt t i = none
  ∧ (extract_information noRagEnv "Call (555) 123-4567".data).phone
      = "555) 123-4567".data := by
  constructor
  · unfold matchAtPos
    cases hr : t.drop i with
    | nil =>
      rw [hr] at hc
      cases hc
    | cons c0 cs =>
      rw [hr] at hc
      simp only [List.head?_cons, Option.some.injEq] at hc
      subst hc
      have hword : wordOpt (prevAt t i) = false := by
        rcases hw with h0 | ⟨c, hc1, hc2⟩
        · rw [h0]
          rfl
        · rw [hc1]
          have hcs : (((((c = ' ' ∨ c = '\t') ∨ c = '\n') ∨ c = '\x0d')
              ∨ c = '\x0b') ∨ c = '\x0c') := by
            simpa [pySpace] using hc2
          rcases hcs with ((((rfl | rfl) | rfl) | rfl) | rfl) | rfl <;> decide
      have hb : boundary (prevAt t i) ('(' :: cs) = false := by
        unfold boundary
        rw [hword]
        rfl
      unfold phoneMatchAt
      rw [hb]
      rfl
  · decide

/-- C10 witness: the general boundary fact applied at a concrete position,
together with the concrete extraction. -/
theorem C10_witness :
    ("x (555) 123-4567".data.drop 2).head? = some '('
  ∧ matchAtPos phoneMatchAt "x (555) 123-4567".data 2 = none
  ∧ (extract_information noRagEnv "Call (555) 123-4567".data).phone
      = "555) 123-4567".data := by
  have h := C10_paren_excluded "x (555) 123-4567".data 2 (by decide)
    (Or.inr ⟨' ', by decide, by decide⟩)
  exact ⟨by decide, h.1, h.2⟩
